import Mathlib

/-!
Verification of the `collect_code` repository (file `collect_code.py`).

The core routine is `collect_files(folder_path, exclude_files, exclude_dirs,
all_files)`: it walks the directory tree under `folder_path` top-down
(`os.walk`), prunes subdirectories whose bare name is in `exclude_dirs`
before descending, skips files not ending in `".py"` unless `all_files`
is set, skips files whose full path is in `exclude_files`, reads each
remaining file (replacing the content by an error placeholder when the
read raises), and returns the concatenation of one formatted record per
file.

We embed the routine shallowly: a filesystem is a finite tree of named
directories and file entries, where each file entry records what opening
it for reading would yield (its text, or the error message of the raised
exception).  Paths are lists of components.
-/

namespace CollectCode

/-- What opening a file for reading yields: its decoded text, or the
message of the exception raised (permission error, decode error, ...). -/
inductive ReadResult where
  | ok (content : String)
  | err (msg : String)
deriving DecidableEq, Repr

/-- A file entry of a directory: its name and what reading it yields. -/
structure FileEntry where
  name : String
  read : ReadResult
deriving DecidableEq, Repr

/-- A directory tree: a directory name, its subdirectories and its plain
files, each in the enumeration order `os.walk` reports them in. -/
inductive FSTree where
  | dir (name : String) (dirs : List FSTree) (files : List FileEntry)

/-- The bare name of the directory a tree node stands for. -/
def FSTree.name : FSTree → String
  | .dir n _ _ => n

/-- `Path.name`: the final component of a path (empty for the empty path). -/
def pathName (p : List String) : String := (p.getLast?).getD ""

/-- Python `str.endswith(suffix)`: the final characters of `s` are exactly
the characters of `suffix` (a case-sensitive comparison). -/
def endswith (s suffix : String) : Bool := suffix.data.isSuffixOf s.data

/-- Line 41 of collect_code.py: `if not all_files and not file.endswith(".py"):
continue` — true when the file is skipped by the extension filter. -/
def extSkipped (all_files : Bool) (file : String) : Bool :=
  !all_files && !(endswith file ".py")

/-- Lines 51-56: the content placed in the record — the file text on a
successful read, the `<<Error reading file: ...>>` placeholder built from
the exception message when the read raises. -/
def contentOf : ReadResult → String
  | .ok c => c
  | .err e => "<<Error reading file: " ++ e ++ ">>"

/-- Line 58: the record appended to `output_parts` for one file, with
`rel_dirs` the directory components of the path of the file relative to
`folder_path`: `f"[{folder_path.name}/{rel_path}]\n{content}\n\n"`. -/
def part (folder_path rel_dirs : List String) (f : FileEntry) : String :=
  "[" ++ pathName folder_path ++ "/" ++
    String.intercalate "/" (rel_dirs ++ [f.name]) ++ "]\n" ++
    contentOf f.read ++ "\n\n"

/-- Lines 39-58, inner loop: the records contributed to `output_parts` by
the files of one visited directory, in order.  A file is skipped when the
extension filter rejects it (line 41) or its full path
`Path(root) / file` is in `exclude_files` (line 46); every other file is
read and yields exactly one record. -/
def filesParts (folder_path : List String) (exclude_files : List (List String))
    (all_files : Bool) (rel_dirs : List String) : List FileEntry → List String
  | [] => []
  | f :: fs =>
      (if extSkipped all_files f.name then []
       else if (folder_path ++ rel_dirs ++ [f.name]) ∈ exclude_files then []
       else [part folder_path rel_dirs f]) ++
      filesParts folder_path exclude_files all_files rel_dirs fs

mutual

/-- Lines 35-58: the records contributed by the `os.walk` traversal of one
directory node (visited at relative directory path `rel_dirs`): first the
records of its own files, then, in order, those of the subdirectories that
survive the in-place pruning `dirs[:] = [d for d in dirs if d not in
exclude_dirs]` (line 37) — pruned subdirectories are never descended into. -/
def walkParts (folder_path : List String) (exclude_files : List (List String))
    (exclude_dirs : List String) (all_files : Bool) (rel_dirs : List String) :
    FSTree → List String
  | .dir _ dirs files =>
      filesParts folder_path exclude_files all_files rel_dirs files ++
      subdirParts folder_path exclude_files exclude_dirs all_files rel_dirs dirs
termination_by structural t => t

/-- The records contributed by a list of candidate subdirectories: a
subdirectory whose bare name is in `exclude_dirs` is pruned (contributes
nothing, is never visited); the others are walked in order. -/
def subdirParts (folder_path : List String) (exclude_files : List (List String))
    (exclude_dirs : List String) (all_files : Bool) (rel_dirs : List String) :
    List FSTree → List String
  | [] => []
  | d :: ds =>
      (if d.name ∈ exclude_dirs then []
       else walkParts folder_path exclude_files exclude_dirs all_files
              (rel_dirs ++ [d.name]) d) ++
      subdirParts folder_path exclude_files exclude_dirs all_files rel_dirs ds
termination_by structural ts => ts

end

/-- Embedding of `collect_files` (collect_code.py lines 17-60): walk the
tree rooted at `folder_path`, collect `output_parts`, return
`"".join(output_parts)`. -/
def collect_files (folder_path : List String) (exclude_files : List (List String))
    (exclude_dirs : List String) (all_files : Bool) (tree : FSTree) : String :=
  String.join (walkParts folder_path exclude_files exclude_dirs all_files [] tree)

/-- The files the inner loop reads and emits, as pairs of the directory
components of their relative path and the file entry: `filesParts` is the
image of this list under `part`.  In the code, every file that passes the
two `continue` checks is opened exactly once (line 52) and contributes
exactly one record. -/
def filesEmitted (folder_path : List String) (exclude_files : List (List String))
    (all_files : Bool) (rel_dirs : List String) :
    List FileEntry → List (List String × FileEntry)
  | [] => []
  | f :: fs =>
      (if extSkipped all_files f.name then []
       else if (folder_path ++ rel_dirs ++ [f.name]) ∈ exclude_files then []
       else [(rel_dirs, f)]) ++
      filesEmitted folder_path exclude_files all_files rel_dirs fs

mutual

/-- The files the walk of one directory node reads and emits, in
visitation order; `walkParts` is the image of this list under `part`. -/
def walkEmitted (folder_path : List String) (exclude_files : List (List String))
    (exclude_dirs : List String) (all_files : Bool) (rel_dirs : List String) :
    FSTree → List (List String × FileEntry)
  | .dir _ dirs files =>
      filesEmitted folder_path exclude_files all_files rel_dirs files ++
      subdirEmitted folder_path exclude_files exclude_dirs all_files rel_dirs dirs
termination_by structural t => t

/-- The files read and emitted while walking a list of candidate
subdirectories (pruned ones contribute nothing). -/
def subdirEmitted (folder_path : List String) (exclude_files : List (List String))
    (exclude_dirs : List String) (all_files : Bool) (rel_dirs : List String) :
    List FSTree → List (List String × FileEntry)
  | [] => []
  | d :: ds =>
      (if d.name ∈ exclude_dirs then []
       else walkEmitted folder_path exclude_files exclude_dirs all_files
              (rel_dirs ++ [d.name]) d) ++
      subdirEmitted folder_path exclude_files exclude_dirs all_files rel_dirs ds
termination_by structural ts => ts

end

mutual

/-- Two trees have the same shape and names (directory names and file
names agree everywhere); the read results of the files may differ.  Used
to state that which files are emitted, and under which headers, does not
depend on whether any file is readable. -/
def sameNames : FSTree → FSTree → Bool
  | .dir n1 ds1 fs1, .dir n2 ds2 fs2 =>
      n1 == n2 && (fs1.map FileEntry.name == fs2.map FileEntry.name) &&
        sameNamesForest ds1 ds2
termination_by structural t => t

/-- Pointwise `sameNames` on subdirectory lists of equal length. -/
def sameNamesForest : List FSTree → List FSTree → Bool
  | [], [] => true
  | [], _ :: _ => false
  | _ :: _, [] => false
  | d :: ds, e :: es => sameNames d e && sameNamesForest ds es
termination_by structural ts => ts

end

mutual

/-- The tree holds no files at all outside pruned subdirectories: its own
file list is empty and every subdirectory either is pruned by
`exclude_dirs` or recursively holds no files after pruning. -/
def noFilesAfterPruning (exclude_dirs : List String) : FSTree → Bool
  | .dir _ dirs files =>
      files.isEmpty && forestNoFilesAfterPruning exclude_dirs dirs
termination_by structural t => t

/-- `noFilesAfterPruning` over a subdirectory list. -/
def forestNoFilesAfterPruning (exclude_dirs : List String) : List FSTree → Bool
  | [] => true
  | d :: ds =>
      (decide (d.name ∈ exclude_dirs) || noFilesAfterPruning exclude_dirs d) &&
        forestNoFilesAfterPruning exclude_dirs ds
termination_by structural ts => ts

end

/-- Opening one file of the filesystem for reading, as an action on the
filesystem state: line 52 opens the file in mode `"r"` (read only), so the
action yields the read result and leaves the filesystem unchanged. -/
def openForRead (fs : FSTree) (f : FileEntry) : ReadResult × FSTree :=
  (f.read, fs)

/-- The inner loop of lines 39-58 as an action on the filesystem state:
each file that passes the two `continue` checks is opened via
`openForRead` and its record is produced from whatever the open yields,
threading the filesystem state through the reads in visitation order. -/
def filesRun (folder_path : List String) (exclude_files : List (List String))
    (all_files : Bool) (rel_dirs : List String) :
    List FileEntry → FSTree → List String × FSTree
  | [], fs => ([], fs)
  | f :: rest, fs =>
      if extSkipped all_files f.name then
        filesRun folder_path exclude_files all_files rel_dirs rest fs
      else if (folder_path ++ rel_dirs ++ [f.name]) ∈ exclude_files then
        filesRun folder_path exclude_files all_files rel_dirs rest fs
      else
        let rc := openForRead fs f
        let pr := filesRun folder_path exclude_files all_files rel_dirs rest rc.2
        (("[" ++ pathName folder_path ++ "/" ++
            String.intercalate "/" (rel_dirs ++ [f.name]) ++ "]\n" ++
            contentOf rc.1 ++ "\n\n") :: pr.1, pr.2)

mutual

/-- The walk of lines 35-58 as an action on the filesystem state:
identical traversal and filtering, but every file open threads the
filesystem state, so that mutation of the filesystem by the call — were
there any — would be visible in the returned state. -/
def walkRun (folder_path : List String) (exclude_files : List (List String))
    (exclude_dirs : List String) (all_files : Bool) (rel_dirs : List String) :
    FSTree → FSTree → List String × FSTree
  | .dir _ dirs files, fs =>
      let p1 := filesRun folder_path exclude_files all_files rel_dirs files fs
      let p2 := subdirRun folder_path exclude_files exclude_dirs all_files
                  rel_dirs dirs p1.2
      (p1.1 ++ p2.1, p2.2)
termination_by structural t => t

/-- `walkRun` over a candidate subdirectory list (pruned ones are not
visited and touch nothing). -/
def subdirRun (folder_path : List String) (exclude_files : List (List String))
    (exclude_dirs : List String) (all_files : Bool) (rel_dirs : List String) :
    List FSTree → FSTree → List String × FSTree
  | [], fs => ([], fs)
  | d :: ds, fs =>
      let p1 := if d.name ∈ exclude_dirs then (([] : List String), fs)
                else walkRun folder_path exclude_files exclude_dirs all_files
                       (rel_dirs ++ [d.name]) d fs
      let p2 := subdirRun folder_path exclude_files exclude_dirs all_files
                  rel_dirs ds p1.2
      (p1.1 ++ p2.1, p2.2)
termination_by structural ts => ts

end

/-- `collect_files` as an action on the filesystem state: the tree the
walk enumerates is the filesystem under `folder_path` at call time, and
the returned pair is the output text together with the filesystem the
call leaves behind. -/
def collect_files_run (folder_path : List String)
    (exclude_files : List (List String)) (exclude_dirs : List String)
    (all_files : Bool) (fs : FSTree) : String × FSTree :=
  let p := walkRun folder_path exclude_files exclude_dirs all_files [] fs fs
  (String.join p.1, p.2)

/-- The per-folder loop of `main` (collect_code.py lines 109-118): each
root is an already-resolved directory path paired with the tree under it;
`collect_files` is called once per root and the returned texts are
concatenated in the order the roots were given. -/
def collectAll (roots : List (List String × FSTree))
    (exclude_files : List (List String)) (exclude_dirs : List String)
    (all_files : Bool) : String :=
  String.join (roots.map fun rt =>
    collect_files rt.1 exclude_files exclude_dirs all_files rt.2)

/-- The word `w` occurs contiguously inside the string `s`. -/
def containsStr (s w : String) : Prop :=
  ∃ a b : List Char, s.data = a ++ w.data ++ b

/-- Membership in `filesEmitted`: exactly the files of the list that pass
the extension filter and are not in `exclude_files`, each tagged with the
current relative directory path. -/
theorem mem_filesEmitted (folder_path : List String)
    (exclude_files : List (List String)) (all_files : Bool)
    (rel_dirs : List String) (l : List FileEntry) (rd : List String)
    (f : FileEntry) :
    (rd, f) ∈ filesEmitted folder_path exclude_files all_files rel_dirs l ↔
      rd = rel_dirs ∧ f ∈ l ∧ extSkipped all_files f.name = false ∧
        (folder_path ++ rel_dirs ++ [f.name]) ∉ exclude_files := by
  induction l with
  | nil => simp [filesEmitted]
  | cons g gs ih =>
      rw [filesEmitted]
      by_cases h1 : extSkipped all_files g.name
      · rw [if_pos h1, List.nil_append, ih]
        constructor
        · rintro ⟨rfl, hf, hsk, hne⟩
          exact ⟨rfl, List.mem_cons_of_mem _ hf, hsk, hne⟩
        · rintro ⟨rfl, hf, hsk, hne⟩
          rcases List.mem_cons.1 hf with rfl | hf2
          · rw [hsk] at h1; cases h1
          · exact ⟨rfl, hf2, hsk, hne⟩
      · rw [if_neg h1]
        by_cases h2 : (folder_path ++ rel_dirs ++ [g.name]) ∈ exclude_files
        · rw [if_pos h2, List.nil_append, ih]
          constructor
          · rintro ⟨rfl, hf, hsk, hne⟩
            exact ⟨rfl, List.mem_cons_of_mem _ hf, hsk, hne⟩
          · rintro ⟨rfl, hf, hsk, hne⟩
            rcases List.mem_cons.1 hf with rfl | hf2
            · exact absurd h2 hne
            · exact ⟨rfl, hf2, hsk, hne⟩
        · rw [if_neg h2, List.singleton_append, List.mem_cons, ih]
          constructor
          · rintro (heq | ⟨rfl, hf, hsk, hne⟩)
            · rw [Prod.mk.injEq] at heq
              obtain ⟨rfl, rfl⟩ := heq
              exact ⟨rfl, List.mem_cons_self _ _, by simpa using h1, h2⟩
            · exact ⟨rfl, List.mem_cons_of_mem _ hf, hsk, hne⟩
          · rintro ⟨rfl, hf, hsk, hne⟩
            rcases List.mem_cons.1 hf with rfl | hf2
            · exact Or.inl rfl
            · exact Or.inr ⟨rfl, hf2, hsk, hne⟩

/-- `filesParts` is the image of `filesEmitted` under the record format. -/
theorem filesParts_eq_map (folder_path : List String)
    (exclude_files : List (List String)) (all_files : Bool)
    (rel_dirs : List String) (l : List FileEntry) :
    filesParts folder_path exclude_files all_files rel_dirs l =
      (filesEmitted folder_path exclude_files all_files rel_dirs l).map
        (fun rf => part folder_path rf.1 rf.2) := by
  induction l with
  | nil => simp [filesParts, filesEmitted]
  | cons g gs ih =>
      rw [filesParts, filesEmitted, List.map_append, ih]
      congr 1
      by_cases h1 : extSkipped all_files g.name
      · rw [if_pos h1, if_pos h1]; rfl
      · by_cases h2 : (folder_path ++ rel_dirs ++ [g.name]) ∈ exclude_files
        · rw [if_neg h1, if_neg h1, if_pos h2, if_pos h2]; rfl
        · rw [if_neg h1, if_neg h1, if_neg h2, if_neg h2]; rfl

mutual

/-- `walkParts` is the image of `walkEmitted` under the record format. -/
theorem walkParts_eq_map (folder_path : List String)
    (exclude_files : List (List String)) (exclude_dirs : List String)
    (all_files : Bool) : ∀ (t : FSTree) (rel_dirs : List String),
    walkParts folder_path exclude_files exclude_dirs all_files rel_dirs t =
      (walkEmitted folder_path exclude_files exclude_dirs all_files rel_dirs t).map
        (fun rf => part folder_path rf.1 rf.2)
  | .dir n dirs files => by
      intro rel_dirs
      rw [walkParts, walkEmitted, List.map_append, filesParts_eq_map,
        subdirParts_eq_map folder_path exclude_files exclude_dirs all_files dirs]
termination_by structural t => t

/-- `subdirParts` is the image of `subdirEmitted` under the record format. -/
theorem subdirParts_eq_map (folder_path : List String)
    (exclude_files : List (List String)) (exclude_dirs : List String)
    (all_files : Bool) : ∀ (ts : List FSTree) (rel_dirs : List String),
    subdirParts folder_path exclude_files exclude_dirs all_files rel_dirs ts =
      (subdirEmitted folder_path exclude_files exclude_dirs all_files rel_dirs ts).map
        (fun rf => part folder_path rf.1 rf.2)
  | [] => by intro rel_dirs; rw [subdirParts, subdirEmitted]; rfl
  | d :: ds => by
      intro rel_dirs
      rw [subdirParts, subdirEmitted, List.map_append,
        subdirParts_eq_map folder_path exclude_files exclude_dirs all_files ds]
      congr 1
      split
      · rfl
      · rw [walkParts_eq_map folder_path exclude_files exclude_dirs all_files d]
termination_by structural ts => ts

end

mutual

/-- If no component of the relative directory path accumulated so far is
in `exclude_dirs`, then no emitted file of the walk has a relative
directory component in `exclude_dirs`: pruning removes a subdirectory
before descent, so the walk never enters it. -/
theorem walkEmitted_pruned (fp : List String) (ef : List (List String))
    (ed : List String) (af : Bool) :
    ∀ (t : FSTree) (rd0 : List String), (∀ x ∈ rd0, x ∉ ed) →
      ∀ (rd : List String) (f : FileEntry),
        (rd, f) ∈ walkEmitted fp ef ed af rd0 t → ∀ x ∈ rd, x ∉ ed
  | .dir n dirs files => by
      intro rd0 h0 rd f hmem
      rw [walkEmitted] at hmem
      rcases List.mem_append.1 hmem with hL | hR
      · obtain ⟨rfl, -, -, -⟩ := (mem_filesEmitted fp ef af rd0 files rd f).1 hL
        exact h0
      · exact subdirEmitted_pruned fp ef ed af dirs rd0 h0 rd f hR
termination_by structural t => t

/-- `walkEmitted_pruned` for a candidate subdirectory list. -/
theorem subdirEmitted_pruned (fp : List String) (ef : List (List String))
    (ed : List String) (af : Bool) :
    ∀ (ts : List FSTree) (rd0 : List String), (∀ x ∈ rd0, x ∉ ed) →
      ∀ (rd : List String) (f : FileEntry),
        (rd, f) ∈ subdirEmitted fp ef ed af rd0 ts → ∀ x ∈ rd, x ∉ ed
  | [] => by
      intro rd0 h0 rd f hmem
      rw [subdirEmitted] at hmem
      cases hmem
  | d :: ds => by
      intro rd0 h0 rd f hmem
      rw [subdirEmitted] at hmem
      rcases List.mem_append.1 hmem with hL | hR
      · by_cases hd : d.name ∈ ed
        · rw [if_pos hd] at hL; cases hL
        · rw [if_neg hd] at hL
          refine walkEmitted_pruned fp ef ed af d (rd0 ++ [d.name]) ?_ rd f hL
          intro x hx
          rcases List.mem_append.1 hx with h | h
          · exact h0 x h
          · rw [List.mem_singleton.1 h]; exact hd
      · exact subdirEmitted_pruned fp ef ed af ds rd0 h0 rd f hR
termination_by structural ts => ts

end

mutual

/-- No emitted file of the walk has its full path in `exclude_files`:
line 46 skips exactly those files. -/
theorem walkEmitted_not_excluded (fp : List String) (ef : List (List String))
    (ed : List String) (af : Bool) :
    ∀ (t : FSTree) (rd0 rd : List String) (f : FileEntry),
      (rd, f) ∈ walkEmitted fp ef ed af rd0 t → (fp ++ rd ++ [f.name]) ∉ ef
  | .dir n dirs files => by
      intro rd0 rd f hmem
      rw [walkEmitted] at hmem
      rcases List.mem_append.1 hmem with hL | hR
      · obtain ⟨rfl, -, -, hne⟩ := (mem_filesEmitted fp ef af rd0 files rd f).1 hL
        exact hne
      · exact subdirEmitted_not_excluded fp ef ed af dirs rd0 rd f hR
termination_by structural t => t

/-- `walkEmitted_not_excluded` for a candidate subdirectory list. -/
theorem subdirEmitted_not_excluded (fp : List String) (ef : List (List String))
    (ed : List String) (af : Bool) :
    ∀ (ts : List FSTree) (rd0 rd : List String) (f : FileEntry),
      (rd, f) ∈ subdirEmitted fp ef ed af rd0 ts → (fp ++ rd ++ [f.name]) ∉ ef
  | [] => by
      intro rd0 rd f hmem
      rw [subdirEmitted] at hmem
      cases hmem
  | d :: ds => by
      intro rd0 rd f hmem
      rw [subdirEmitted] at hmem
      rcases List.mem_append.1 hmem with hL | hR
      · by_cases hd : d.name ∈ ed
        · rw [if_pos hd] at hL; cases hL
        · rw [if_neg hd] at hL
          exact walkEmitted_not_excluded fp ef ed af d (rd0 ++ [d.name]) rd f hL
      · exact subdirEmitted_not_excluded fp ef ed af ds rd0 rd f hR
termination_by structural ts => ts

end

/-- Which files of a directory are emitted, and under which relative
paths, depends only on the file names, not on their read results. -/
theorem filesEmitted_names (fp : List String) (ef : List (List String))
    (af : Bool) (rd : List String) (l1 : List FileEntry) :
    ∀ l2 : List FileEntry, l1.map FileEntry.name = l2.map FileEntry.name →
      (filesEmitted fp ef af rd l1).map (fun rf => (rf.1, rf.2.name)) =
        (filesEmitted fp ef af rd l2).map (fun rf => (rf.1, rf.2.name)) := by
  induction l1 with
  | nil =>
      intro l2 h
      rw [List.map_nil] at h
      rw [List.eq_nil_of_map_eq_nil h.symm]
  | cons g gs ih =>
      intro l2 h
      cases l2 with
      | nil => simp at h
      | cons g2 gs2 =>
          simp only [List.map_cons, List.cons.injEq] at h
          obtain ⟨hn, ht⟩ := h
          rw [filesEmitted, filesEmitted, List.map_append, List.map_append,
            ih gs2 ht]
          congr 1
          by_cases h1 : extSkipped af g.name
          · have h1b : extSkipped af g2.name = true := by rw [← hn]; exact h1
            rw [if_pos h1, if_pos h1b]
          · have h1b : ¬extSkipped af g2.name = true := by rw [← hn]; exact h1
            rw [if_neg h1, if_neg h1b]
            by_cases h2 : (fp ++ rd ++ [g.name]) ∈ ef
            · have h2b : (fp ++ rd ++ [g2.name]) ∈ ef := by rw [← hn]; exact h2
              rw [if_pos h2, if_pos h2b]
            · have h2b : (fp ++ rd ++ [g2.name]) ∉ ef := by rw [← hn]; exact h2
              rw [if_neg h2, if_neg h2b]
              simp [hn]

/-- Trees with the same names have roots of the same name. -/
theorem sameNames_name (t u : FSTree) (h : sameNames t u = true) :
    t.name = u.name := by
  cases t with
  | dir n1 ds1 fs1 =>
      cases u with
      | dir n2 ds2 fs2 =>
          rw [sameNames] at h
          simp only [Bool.and_eq_true, beq_iff_eq] at h
          exact h.1.1

mutual

/-- Which files the walk emits, and under which relative paths, depends
only on the shape and names of the tree, not on any read result: an
unreadable file changes nothing but its own record's content. -/
theorem walkEmitted_names (fp : List String) (ef : List (List String))
    (ed : List String) (af : Bool) :
    ∀ (t u : FSTree) (rd : List String), sameNames t u = true →
      (walkEmitted fp ef ed af rd t).map (fun rf => (rf.1, rf.2.name)) =
        (walkEmitted fp ef ed af rd u).map (fun rf => (rf.1, rf.2.name))
  | .dir n1 ds1 fs1 => by
      intro u rd h
      cases u with
      | dir n2 ds2 fs2 =>
          rw [sameNames] at h
          simp only [Bool.and_eq_true, beq_iff_eq] at h
          obtain ⟨⟨-, hfs⟩, hds⟩ := h
          rw [walkEmitted, walkEmitted, List.map_append, List.map_append,
            filesEmitted_names fp ef af rd fs1 fs2 hfs,
            subdirEmitted_names fp ef ed af ds1 ds2 rd hds]
termination_by structural t => t

/-- `walkEmitted_names` for candidate subdirectory lists. -/
theorem subdirEmitted_names (fp : List String) (ef : List (List String))
    (ed : List String) (af : Bool) :
    ∀ (ts us : List FSTree) (rd : List String), sameNamesForest ts us = true →
      (subdirEmitted fp ef ed af rd ts).map (fun rf => (rf.1, rf.2.name)) =
        (subdirEmitted fp ef ed af rd us).map (fun rf => (rf.1, rf.2.name))
  | [] => by
      intro us rd h
      cases us with
      | nil => rfl
      | cons e es => rw [sameNamesForest] at h; cases h
  | d :: ds => by
      intro us rd h
      cases us with
      | nil => rw [sameNamesForest] at h; cases h
      | cons e es =>
          rw [sameNamesForest] at h
          simp only [Bool.and_eq_true] at h
          obtain ⟨hde, hdses⟩ := h
          rw [subdirEmitted, subdirEmitted, List.map_append, List.map_append,
            subdirEmitted_names fp ef ed af ds es rd hdses]
          congr 1
          have hname : d.name = e.name := sameNames_name d e hde
          by_cases hd : d.name ∈ ed
          · have hdb : e.name ∈ ed := by rw [← hname]; exact hd
            rw [if_pos hd, if_pos hdb]
          · have hdb : e.name ∉ ed := by rw [← hname]; exact hd
            rw [if_neg hd, if_neg hdb, ← hname]
            exact walkEmitted_names fp ef ed af d e (rd ++ [d.name]) hde
termination_by structural ts => ts

end

mutual

/-- A tree with no files outside pruned subdirectories contributes no
records to the walk. -/
theorem walkParts_of_noFiles (fp : List String) (ef : List (List String))
    (ed : List String) (af : Bool) :
    ∀ (t : FSTree) (rd : List String), noFilesAfterPruning ed t = true →
      walkParts fp ef ed af rd t = []
  | .dir n dirs files => by
      intro rd h
      rw [noFilesAfterPruning] at h
      simp only [Bool.and_eq_true, List.isEmpty_iff] at h
      obtain ⟨hf, hd⟩ := h
      rw [walkParts, hf, filesParts, List.nil_append]
      exact subdirParts_of_noFiles fp ef ed af dirs rd hd
termination_by structural t => t

/-- `walkParts_of_noFiles` for candidate subdirectory lists. -/
theorem subdirParts_of_noFiles (fp : List String) (ef : List (List String))
    (ed : List String) (af : Bool) :
    ∀ (ts : List FSTree) (rd : List String),
      forestNoFilesAfterPruning ed ts = true →
        subdirParts fp ef ed af rd ts = []
  | [] => by intro rd h; rw [subdirParts]
  | d :: ds => by
      intro rd h
      rw [forestNoFilesAfterPruning] at h
      simp only [Bool.and_eq_true, Bool.or_eq_true, decide_eq_true_eq] at h
      obtain ⟨hd, hds⟩ := h
      rw [subdirParts, subdirParts_of_noFiles fp ef ed af ds rd hds,
        List.append_nil]
      rcases hd with hd | hd
      · rw [if_pos hd]
      · by_cases hmem : d.name ∈ ed
        · rw [if_pos hmem]
        · rw [if_neg hmem]
          exact walkParts_of_noFiles fp ef ed af d (rd ++ [d.name]) hd
termination_by structural ts => ts

end

/-- The file loop, run against the filesystem state, produces the same
records as the pure loop and leaves the filesystem exactly as it was. -/
theorem filesRun_eq (fp : List String) (ef : List (List String)) (af : Bool)
    (rd : List String) (l : List FileEntry) :
    ∀ fs : FSTree, filesRun fp ef af rd l fs = (filesParts fp ef af rd l, fs) := by
  induction l with
  | nil => intro fs; rw [filesRun, filesParts]
  | cons f rest ih =>
      intro fs
      rw [filesRun, filesParts]
      by_cases h1 : extSkipped af f.name
      · rw [if_pos h1, if_pos h1, List.nil_append, ih]
      · rw [if_neg h1, if_neg h1]
        by_cases h2 : (fp ++ rd ++ [f.name]) ∈ ef
        · rw [if_pos h2, if_pos h2, List.nil_append, ih]
        · rw [if_neg h2, if_neg h2]
          simp only [openForRead, ih fs, List.singleton_append]
          rfl

mutual

/-- The walk, run against the filesystem state, produces the same records
as the pure walk and leaves the filesystem exactly as it was. -/
theorem walkRun_eq (fp : List String) (ef : List (List String))
    (ed : List String) (af : Bool) :
    ∀ (t : FSTree) (rd : List String) (fs : FSTree),
      walkRun fp ef ed af rd t fs = (walkParts fp ef ed af rd t, fs)
  | .dir n dirs files => by
      intro rd fs
      rw [walkRun, walkParts]
      simp only [filesRun_eq fp ef af rd files fs,
        subdirRun_eq fp ef ed af dirs rd fs]
termination_by structural t => t

/-- `walkRun_eq` for candidate subdirectory lists. -/
theorem subdirRun_eq (fp : List String) (ef : List (List String))
    (ed : List String) (af : Bool) :
    ∀ (ts : List FSTree) (rd : List String) (fs : FSTree),
      subdirRun fp ef ed af rd ts fs = (subdirParts fp ef ed af rd ts, fs)
  | [] => by intro rd fs; rw [subdirRun, subdirParts]
  | d :: ds => by
      intro rd fs
      rw [subdirRun, subdirParts]
      by_cases hd : d.name ∈ ed
      · simp only [if_pos hd, subdirRun_eq fp ef ed af ds rd fs]
      · simp only [if_neg hd, walkRun_eq fp ef ed af d (rd ++ [d.name]) fs,
          subdirRun_eq fp ef ed af ds rd fs]
termination_by structural ts => ts

end

/-- The record of a file whose read raised with message `e` has the usual
header and the placeholder content, and contains the word `Error`. -/
theorem part_err (fp rd : List String) (f : FileEntry) (e : String)
    (h : f.read = ReadResult.err e) :
    part fp rd f =
      "[" ++ pathName fp ++ "/" ++
        String.intercalate "/" (rd ++ [f.name]) ++ "]\n" ++
        "<<Error reading file: " ++ e ++ ">>" ++ "\n\n" ∧
      containsStr (part fp rd f) "Error" := by
  constructor
  · apply String.ext
    simp [part, contentOf, h, String.data_append, List.append_assoc]
  · refine ⟨("[" ++ pathName fp ++ "/" ++
        String.intercalate "/" (rd ++ [f.name]) ++ "]\n").data ++ "<<".data,
      " reading file: ".data ++ e.data ++ ">>".data ++ "\n\n".data, ?_⟩
    simp [part, contentOf, h, String.data_append, List.append_assoc]

/-- C1: the claim says that with `allFiles = false` a file is emitted iff
its extension is a case-insensitive member of `includeExtensions` and not
in `excludeExtensions` and the file is not in `fileExclusions`.  The code
has no `includeExtensions` or `excludeExtensions` parameter at all: line
41 admits exactly the names that end, case-sensitively, in `".py"`.  At
the failing input — a root holding `Test.java`, whose extension is in the
default allow-list the repository's own tests pass — the call emits
nothing, and a root holding `a.py` and `b.java` yields only the `a.py`
record. -/
theorem collect_files_ignores_allow_list :
    collect_files ["r"] [] [] false
      (.dir "r" [] [⟨"Test.java", .ok "y"⟩]) = "" ∧
    collect_files ["r"] [] [] false
      (.dir "r" [] [⟨"a.py", .ok "x"⟩, ⟨"b.java", .ok "y"⟩]) =
      "[r/a.py]\nx\n\n" := by
  constructor
  · decide
  · decide

/-- C2: the claim says a file whose extension is in `excludeExtensions`
is never emitted, under any mode.  The code has no `excludeExtensions`
parameter (its signature is `collect_files(folder_path, exclude_files,
exclude_dirs, all_files)`), so no deny-list is ever consulted: with
`all_files = true` the file `b.java` is emitted even though the claimed
configuration puts `".java"` in the deny-list. -/
theorem collect_files_has_no_deny_list :
    collect_files ["r"] [] [] true
      (.dir "r" [] [⟨"b.java", .ok "y"⟩]) = "[r/b.java]\ny\n\n" := by decide

/-- C3: the claim says extension matching is case-insensitive, so
`Test.PY` is filtered exactly like `test.py`.  Line 41 uses the
case-sensitive `str.endswith(".py")`: in default mode the file `Test.PY`
is skipped while the identically configured `test.py` is emitted. -/
theorem collect_files_case_sensitive :
    collect_files ["r"] [] [] false
      (.dir "r" [] [⟨"Test.PY", .ok "x"⟩]) = "" ∧
    collect_files ["r"] [] [] false
      (.dir "r" [] [⟨"test.py", .ok "x"⟩]) = "[r/test.py]\nx\n\n" := by
  constructor
  · decide
  · decide

/-- C4 (counterexample): the claim quantifies over every path component
of an emitted file's path, but the traversal root itself is never pruned
— `os.walk` always yields the top directory, and line 37 filters only the
subdirectory lists below it.  With the root directory itself named
`build` and `exclude_dirs = {"build"}`, the file `a.py` is emitted even
though its path `build/a.py` contains the excluded component `build`. -/
theorem collect_files_root_escapes_pruning :
    collect_files ["build"] [] ["build"] false
      (.dir "build" [] [⟨"a.py", .ok "x"⟩]) = "[build/a.py]\nx\n\n" ∧
    "build" ∈ (["build"] : List String) ∧
    "build" ∈ (["build", "a.py"] : List String) := by
  refine ⟨by decide, by decide, by decide⟩

/-- C4 (amended): no file whose path contains, strictly below its
traversal root, a directory component in `exclude_dirs` is ever emitted
or read: line 37 removes such subdirectories from the walk before
descent, so nothing beneath them is visited.  `walkEmitted` lists exactly
the files the call opens (line 52), each of which yields exactly one
record, so the statement covers both reads and output. -/
theorem collect_files_prunes_below_root (fp : List String)
    (ef : List (List String)) (ed : List String) (af : Bool) (t : FSTree)
    (rd : List String) (f : FileEntry)
    (h : (rd, f) ∈ walkEmitted fp ef ed af [] t) :
    ∀ x ∈ rd, x ∉ ed :=
  walkEmitted_pruned fp ef ed af t [] (by intro x hx; cases hx) rd f h

/-- C4 (witness): a concrete emitted file below an unpruned subdirectory
has no excluded component below the root. -/
theorem collect_files_prunes_below_root_witness :
    (["sub"], (⟨"a.py", .ok "x"⟩ : FileEntry)) ∈
      walkEmitted ["r"] [] ["build"] false []
        (.dir "r" [.dir "sub" [] [⟨"a.py", .ok "x"⟩]] []) ∧
    ∀ x ∈ ["sub"], x ∉ (["build"] : List String) :=
  ⟨by decide,
    collect_files_prunes_below_root ["r"] [] ["build"] false
      (.dir "r" [.dir "sub" [] [⟨"a.py", .ok "x"⟩]] []) ["sub"]
      ⟨"a.py", .ok "x"⟩ (by decide)⟩

/-- C5: a read failure is local. First, which files are emitted and under
which headers depends only on the names in the tree, never on any read
result, so making one file unreadable leaves every other record in place;
second, the record of a file whose read raised with message `e` keeps the
usual header, carries the `<<Error reading file: e>>` placeholder, and
contains the word `Error`; third, the call returns normally — its result
is always the concatenation of the records of the emitted files. -/
theorem collect_files_read_failure_local :
    (∀ (fp : List String) (ef : List (List String)) (ed : List String)
        (af : Bool) (rd : List String) (t u : FSTree),
        sameNames t u = true →
        (walkEmitted fp ef ed af rd t).map (fun rf => (rf.1, rf.2.name)) =
          (walkEmitted fp ef ed af rd u).map (fun rf => (rf.1, rf.2.name))) ∧
    (∀ (fp rd : List String) (f : FileEntry) (e : String),
        f.read = ReadResult.err e →
        part fp rd f = "[" ++ pathName fp ++ "/" ++
          String.intercalate "/" (rd ++ [f.name]) ++ "]\n" ++
          "<<Error reading file: " ++ e ++ ">>" ++ "\n\n" ∧
        containsStr (part fp rd f) "Error") ∧
    (∀ (fp : List String) (ef : List (List String)) (ed : List String)
        (af : Bool) (t : FSTree),
        collect_files fp ef ed af t =
          String.join ((walkEmitted fp ef ed af [] t).map
            (fun rf => part fp rf.1 rf.2))) :=
  ⟨fun fp ef ed af rd t u h => walkEmitted_names fp ef ed af t u rd h,
   fun fp rd f e h => part_err fp rd f e h,
   fun fp ef ed af t => by
     rw [collect_files, walkParts_eq_map]⟩

/-- C5 (witness): making `a.py` unreadable leaves the emitted headers
unchanged and yields the placeholder record containing `Error`. -/
theorem collect_files_read_failure_local_witness :
    sameNames (.dir "r" [] [⟨"a.py", .ok "x"⟩, ⟨"b.py", .ok "y"⟩])
        (.dir "r" [] [⟨"a.py", .err "denied"⟩, ⟨"b.py", .ok "y"⟩]) = true ∧
    (walkEmitted ["r"] [] [] false []
        (.dir "r" [] [⟨"a.py", .ok "x"⟩, ⟨"b.py", .ok "y"⟩])).map
        (fun rf => (rf.1, rf.2.name)) =
      (walkEmitted ["r"] [] [] false []
        (.dir "r" [] [⟨"a.py", .err "denied"⟩, ⟨"b.py", .ok "y"⟩])).map
        (fun rf => (rf.1, rf.2.name)) ∧
    part ["r"] [] ⟨"a.py", .err "denied"⟩ =
      "[" ++ pathName ["r"] ++ "/" ++
        String.intercalate "/" ([] ++ ["a.py"]) ++ "]\n" ++
        "<<Error reading file: " ++ "denied" ++ ">>" ++ "\n\n" ∧
    containsStr (part ["r"] [] ⟨"a.py", .err "denied"⟩) "Error" :=
  ⟨by decide,
   collect_files_read_failure_local.1 ["r"] [] [] false []
     (.dir "r" [] [⟨"a.py", .ok "x"⟩, ⟨"b.py", .ok "y"⟩])
     (.dir "r" [] [⟨"a.py", .err "denied"⟩, ⟨"b.py", .ok "y"⟩]) (by decide),
   (collect_files_read_failure_local.2.1 ["r"] [] ⟨"a.py", .err "denied"⟩
     "denied" rfl).1,
   (collect_files_read_failure_local.2.1 ["r"] [] ⟨"a.py", .err "denied"⟩
     "denied" rfl).2⟩

/-- C6: a file whose full path is in `exclude_files` is never emitted,
whatever the mode and however its extension fares: equivalently, every
emitted file's full path `folder_path ++ rel_dirs ++ [name]`, the
`Path(root) / file` of line 44, lies outside `exclude_files` (line 46). -/
theorem collect_files_file_exclusion_absolute (fp : List String)
    (ef : List (List String)) (ed : List String) (af : Bool) (t : FSTree)
    (rd : List String) (f : FileEntry)
    (h : (rd, f) ∈ walkEmitted fp ef ed af [] t) :
    (fp ++ rd ++ [f.name]) ∉ ef :=
  walkEmitted_not_excluded fp ef ed af t [] rd f h

/-- C6 (witness): with `b.py` excluded by full path, the emitted `a.py`
has a path outside the exclusion set, and the output holds only `a.py`
even though the extension of `b.py` qualifies. -/
theorem collect_files_file_exclusion_absolute_witness :
    (([] : List String), (⟨"a.py", .ok "x"⟩ : FileEntry)) ∈
      walkEmitted ["r"] [["r", "b.py"]] [] false []
        (.dir "r" [] [⟨"a.py", .ok "x"⟩, ⟨"b.py", .ok "y"⟩]) ∧
    (["r"] ++ [] ++ ["a.py"]) ∉ ([["r", "b.py"]] : List (List String)) ∧
    collect_files ["r"] [["r", "b.py"]] [] false
      (.dir "r" [] [⟨"a.py", .ok "x"⟩, ⟨"b.py", .ok "y"⟩]) =
      "[r/a.py]\nx\n\n" :=
  ⟨by decide,
   collect_files_file_exclusion_absolute ["r"] [["r", "b.py"]] [] false
     (.dir "r" [] [⟨"a.py", .ok "x"⟩, ⟨"b.py", .ok "y"⟩]) []
     ⟨"a.py", .ok "x"⟩ (by decide),
   by decide⟩

/-- C7: the call is deterministic and pure.  Run against the filesystem
state — every file open threading the state through `openForRead` — the
call leaves the filesystem exactly as it found it, a second invocation
against the state the first one left behind returns byte-identical
output, and the output agrees with the pure function `collect_files`. -/
theorem collect_files_deterministic (fp : List String)
    (ef : List (List String)) (ed : List String) (af : Bool) (fs : FSTree) :
    (collect_files_run fp ef ed af fs).2 = fs ∧
    (collect_files_run fp ef ed af
        ((collect_files_run fp ef ed af fs).2)).1 =
      (collect_files_run fp ef ed af fs).1 ∧
    (collect_files_run fp ef ed af fs).1 = collect_files fp ef ed af fs := by
  have h := walkRun_eq fp ef ed af fs [] fs
  refine ⟨by simp [collect_files_run, h], ?_, by simp [collect_files_run, h, collect_files]⟩
  simp [collect_files_run, h]

/-- C8: the returned text is the concatenation, in visitation order, of
exactly one record `[<root-basename>/<relative-path>]\n<content>\n\n` per
emitted file; and over several roots (main's loop), each root's records
use that root's own basename and paths relative to that root alone. -/
theorem collect_files_record_format :
    (∀ (fp : List String) (ef : List (List String)) (ed : List String)
        (af : Bool) (t : FSTree),
        collect_files fp ef ed af t =
          String.join ((walkEmitted fp ef ed af [] t).map
            (fun rf => "[" ++ pathName fp ++ "/" ++
              String.intercalate "/" (rf.1 ++ [rf.2.name]) ++ "]\n" ++
              contentOf rf.2.read ++ "\n\n"))) ∧
    (∀ (roots : List (List String × FSTree)) (ef : List (List String))
        (ed : List String) (af : Bool),
        collectAll roots ef ed af =
          String.join (roots.map fun rt =>
            String.join ((walkEmitted rt.1 ef ed af [] rt.2).map
              (fun rf => "[" ++ pathName rt.1 ++ "/" ++
                String.intercalate "/" (rf.1 ++ [rf.2.name]) ++ "]\n" ++
                contentOf rf.2.read ++ "\n\n")))) := by
  constructor
  · intro fp ef ed af t
    rw [collect_files, walkParts_eq_map]
    rfl
  · intro roots ef ed af
    have hfun : ∀ rt : List String × FSTree,
        collect_files rt.1 ef ed af rt.2 =
          String.join ((walkEmitted rt.1 ef ed af [] rt.2).map
            (fun rf => "[" ++ pathName rt.1 ++ "/" ++
              String.intercalate "/" (rf.1 ++ [rf.2.name]) ++ "]\n" ++
              contentOf rf.2.read ++ "\n\n")) := by
      intro rt
      rw [collect_files, walkParts_eq_map]
      rfl
    rw [collectAll]
    simp only [hfun]

/-- C9: a root whose tree holds no files outside pruned subdirectories
produces the empty string: `output_parts` stays empty and
`"".join([])` is `""`. -/
theorem collect_files_empty_tree (fp : List String)
    (ef : List (List String)) (ed : List String) (af : Bool) (t : FSTree)
    (h : noFilesAfterPruning ed t = true) :
    collect_files fp ef ed af t = "" := by
  rw [collect_files, walkParts_of_noFiles fp ef ed af t [] h]
  rfl

/-- C9 (witness): a root whose only files sit inside a pruned `build`
subdirectory returns the empty string. -/
theorem collect_files_empty_tree_witness :
    noFilesAfterPruning ["build"]
        (.dir "r" [.dir "build" [] [⟨"out.o", .ok "b"⟩]] []) = true ∧
    collect_files ["r"] [] ["build"] true
      (.dir "r" [.dir "build" [] [⟨"out.o", .ok "b"⟩]] []) = "" :=
  ⟨by decide,
   collect_files_empty_tree ["r"] [] ["build"] true
     (.dir "r" [.dir "build" [] [⟨"out.o", .ok "b"⟩]] []) (by decide)⟩

/-- C10: `exclude_dirs` prunes only subdirectory entries: line 37 filters
the `dirs` list of `os.walk`, while the `files` list is untouched, so a
regular file whose bare name is in `exclude_dirs` is still evaluated by
the extension filter and the file-exclusion check and is emitted when it
qualifies. -/
theorem collect_files_dir_exclusion_spares_files (fp : List String)
    (ef : List (List String)) (ed : List String) (af : Bool) (n : String)
    (dirs : List FSTree) (files : List FileEntry) (f : FileEntry)
    (hmem : f ∈ files) (_hname : f.name ∈ ed)
    (hext : extSkipped af f.name = false) (hef : (fp ++ [f.name]) ∉ ef) :
    ([], f) ∈ walkEmitted fp ef ed af [] (.dir n dirs files) ∧
    part fp [] f ∈ walkParts fp ef ed af [] (.dir n dirs files) := by
  have h1 : (([] : List String), f) ∈ filesEmitted fp ef af [] files :=
    (mem_filesEmitted fp ef af [] files [] f).2
      ⟨rfl, hmem, hext, by simpa using hef⟩
  have h2 : ([], f) ∈ walkEmitted fp ef ed af [] (.dir n dirs files) := by
    rw [walkEmitted]
    exact List.mem_append_left _ h1
  refine ⟨h2, ?_⟩
  rw [walkParts_eq_map]
  exact List.mem_map_of_mem (fun rf => part fp rf.1 rf.2) h2

/-- C10 (witness): a plain file named `build` is emitted in all-files
mode even though `build` is in `exclude_dirs`. -/
theorem collect_files_dir_exclusion_spares_files_witness :
    (([] : List String), (⟨"build", .ok "x"⟩ : FileEntry)) ∈
      walkEmitted ["r"] [] ["build"] true []
        (.dir "r" [] [⟨"build", .ok "x"⟩]) ∧
    part ["r"] [] ⟨"build", .ok "x"⟩ ∈
      walkParts ["r"] [] ["build"] true [] (.dir "r" [] [⟨"build", .ok "x"⟩]) :=
  collect_files_dir_exclusion_spares_files ["r"] [] ["build"] true "r" []
    [⟨"build", .ok "x"⟩] ⟨"build", .ok "x"⟩ (by decide) (by decide)
    (by decide) (by decide)

end CollectCode
